import Mathlib

/- Verification development for feature_utils.py, a library of feature-construction
   utilities for time-series forecasting.  Timestamps are modelled as integers counting
   hours since an arbitrary epoch; series values are rationals.  Each definition mirrors
   one function (or one internal step) of the source file. -/

namespace FeatureUtils

/-- Model of Python range(a, b) over the integers. -/
def pyRange (a b : ℤ) : List ℤ := (List.range (b - a).toNat).map (fun i : ℕ => a + (i : ℤ))

/-- Model of Python min over a timestamp list (default 0 for the empty list;
    Python would raise there, callers establish nonemptiness). -/
def listMinD : List ℤ → ℤ
  | [] => 0
  | x :: xs => xs.foldl min x

/-- Model of Python max over a timestamp list (default 0 for the empty list). -/
def listMaxD : List ℤ → ℤ
  | [] => 0
  | x :: xs => xs.foldl max x

/-- Model of the label lookup df.loc[t, "value"] on a frame indexed by timestamp.
    Timestamps are assumed unique (the module's stated precondition); a lookup of a
    label absent from the index yields none (pandas would raise KeyError, which the
    function models handle explicitly). -/
def lookupVal (rows : List (ℤ × ℚ)) (t : ℤ) : Option ℚ :=
  (rows.find? (fun r => r.1 == t)).map Prod.snd

/-- Model of Python round() on an exact rational: round half to even. -/
def pyRound (x : ℚ) : ℤ :=
  let f := ⌊x⌋
  let r := x - f
  if r < 1 / 2 then f
  else if 1 / 2 < r then f + 1
  else if f % 2 = 0 then f else f + 1

/-- Model of round() applied to a square root (used only by the std aggregation):
    round-half-up of the exact square root of a nonnegative rational.  The source
    rounds the floating-point square root; on exact half-way ties the two may differ,
    but no claim depends on a tie. -/
def sqrtRoundHalfUp (v : ℚ) : ℤ := ((Nat.sqrt (4 * v).floor.toNat : ℤ) + 1) / 2

/-- Row-wise mean over the (possibly missing) lag-column cells of one row, then
    rounding, as in round(df[cols].mean(axis=1)): pandas skips missing values and
    returns NaN (modelled none) when every cell is missing. -/
def meanRow (cells : List (Option ℚ)) : Option ℤ :=
  let xs := cells.filterMap id
  if xs.isEmpty then none else some (pyRound (xs.sum / (xs.length : ℚ)))

/-- Row-wise quantile with linear interpolation, then rounding, as in
    round(df[cols].quantile(q, axis=1)). -/
def quantRow (qv : ℚ) (cells : List (Option ℚ)) : Option ℤ :=
  let xs := List.insertionSort (fun a b : ℚ => a ≤ b) (cells.filterMap id)
  if xs.isEmpty then none
  else
    let n := xs.length
    let pos := qv * ((n : ℚ) - 1)
    let i := ⌊pos⌋
    let lo := xs.getD i.toNat 0
    let hi := xs.getD (i.toNat + 1) lo
    some (pyRound (lo + (pos - (i : ℚ)) * (hi - lo)))

/-- Row-wise sample standard deviation (ddof = 1), then rounding, as in
    round(df[cols].std(axis=1)): NaN (none) when fewer than two values exist. -/
def stdRow (cells : List (Option ℚ)) : Option ℤ :=
  let xs := cells.filterMap id
  if xs.length < 2 then none
  else
    let n : ℚ := (xs.length : ℚ)
    let m := xs.sum / n
    some (sqrtRoundHalfUp ((xs.map (fun x => (x - m) ^ 2)).sum / (n - 1)))

/-- Model of calendar.isleap. -/
def isLeap (y : ℕ) : Bool := y % 4 == 0 && (y % 100 != 0 || y % 400 == 0)

/-- Length of a year in days, as computed inside time_of_year. -/
def yearLength (y : ℕ) : ℕ := if isLeap y then 366 else 365

/-- Model of time_of_year at a single record, taking the pandas accessors
    dt.year, dt.dayofyear (1-based) and dt.hour (0-based) as inputs:
    TimeOfYear = ((DayOfYear - 1) * 24 + HourOfDay) / (YearLength * 24 - 1). -/
def timeOfYearAt (y doy hr : ℕ) : ℚ :=
  (((doy : ℚ) - 1) * 24 + (hr : ℚ)) / ((yearLength y : ℚ) * 24 - 1)

/-- Model of day_type when holiday_col is None: dt.dayofweek (0 = Monday .. 6 = Sunday)
    with the replacement map WEEK_DAY_TYPE_MAP = {1: 2, 3: 2} applied. -/
def dayTypeNoHoliday (dows : List ℕ) : List ℕ :=
  dows.map (fun d => if d = 1 ∨ d = 3 then 2 else d)

/-- Candidate week offsets of same_week_day_hour_lag: for y in range(n_years),
    week_lag_last_year = range(52 - week_window, 52 + week_window + 1) shifted by 52 * y. -/
def weekLagAll (nYears weekWindow : ℕ) : List ℤ :=
  (List.range nYears).flatMap
    (fun y => (pyRange (52 - (weekWindow : ℤ)) (52 + (weekWindow : ℤ) + 1)).map
      (fun x => x + 52 * (y : ℤ)))

/-- Candidate day offsets of same_day_hour_lag: for y in range(n_years),
    day_lag_last_year = range(365 - day_window, 365 + day_window + 1) shifted by 365 * y. -/
def dayLagAll (nYears dayWindow : ℕ) : List ℤ :=
  (List.range nYears).flatMap
    (fun y => (pyRange (365 - (dayWindow : ℤ)) (365 + (dayWindow : ℤ) + 1)).map
      (fun x => x + 365 * (y : ℤ)))

/-- Offset family the claim text ascribes to same_week_day_hour_lag, written from the
    claim's words alone for comparison: 52 * y + k for y in [0, Y) and k in [-w, w]. -/
def claimedWeekOffsets (nYears weekWindow : ℕ) : List ℤ :=
  (List.range nYears).flatMap
    (fun y => (pyRange (-(weekWindow : ℤ)) ((weekWindow : ℤ) + 1)).map
      (fun k => 52 * (y : ℤ) + k))

/-- Offset family the claim text ascribes to same_day_hour_lag, for comparison. -/
def claimedDayOffsets (nYears dayWindow : ℕ) : List ℤ :=
  (List.range nYears).flatMap
    (fun y => (pyRange (-(dayWindow : ℤ)) ((dayWindow : ℤ) + 1)).map
      (fun k => 365 * (y : ℤ) + k))

/-- Lag-column construction shared by same_week_day_hour_lag and same_day_hour_lag
    (lagHours lists each candidate offset converted to hours).  A column is created
    only when max_time_stamp shifted by the offset is still at or after
    min_time_stamp; within a created column, rows whose shifted timestamp precedes
    min_time_stamp keep the initial NaN (none), and the remaining rows receive the
    label-lookup of the shifted timestamp. -/
def lagColumns (rows : List (ℤ × ℚ)) (lagHours : List ℤ) : List (ℤ × List (Option ℚ)) :=
  let ts := rows.map Prod.fst
  let minT := listMinD ts
  let maxT := listMaxD ts
  (lagHours.filter (fun h => minT ≤ maxT - h)).map
    (fun h => (h, rows.map (fun r => if minT ≤ r.1 - h then lookupVal rows (r.1 - h) else none)))

/-- The cells of row j across the created lag columns (df[lag_cols] row-wise view). -/
def rowOfCols (cols : List (ℤ × List (Option ℚ))) (j : ℕ) : List (Option ℚ) :=
  cols.map (fun c => c.2.getD j none)

/-- True when building the lag columns would raise KeyError: some created column has a
    row whose shifted timestamp passes the min_time_stamp mask but is absent from the
    index (df.loc with a missing label). -/
def lagLookupRaises (rows : List (ℤ × ℚ)) (lagHours : List ℤ) : Bool :=
  let ts := rows.map Prod.fst
  let minT := listMinD ts
  let maxT := listMaxD ts
  (lagHours.filter (fun h => minT ≤ maxT - h)).any
    (fun h => rows.any (fun r => decide (minT ≤ r.1 - h) && (lookupVal rows (r.1 - h)).isNone))

/-- Shared tail of same_week_day_hour_lag and same_day_hour_lag: build the lag columns
    (propagating the KeyError a missing lookup label raises), then dispatch on
    (agg_func, q).  An unsupported combination never assigns the output column, so the
    final df[[output_colname]] selection raises KeyError. -/
def lagOutput (rows : List (ℤ × ℚ)) (lagHours : List ℤ) (aggFunc : String) (q : Option ℚ) :
    Except String (List (Option ℤ)) :=
  if lagLookupRaises rows lagHours then .error "KeyError: lag timestamp not in index"
  else if aggFunc = "mean" ∧ q = none then
    .ok ((List.range rows.length).map (fun j => meanRow (rowOfCols (lagColumns rows lagHours) j)))
  else if aggFunc = "quantile" ∧ q ≠ none then
    .ok ((List.range rows.length).map (fun j => quantRow (q.getD 0) (rowOfCols (lagColumns rows lagHours) j)))
  else if aggFunc = "std" ∧ q = none then
    .ok ((List.range rows.length).map (fun j => stdRow (rowOfCols (lagColumns rows lagHours) j)))
  else .error "KeyError: output column not in index"

/-- Model of same_week_day_hour_lag: week offsets, timedelta(weeks=w) = 168 * w hours. -/
def sameWeekDayHourLag (rows : List (ℤ × ℚ)) (nYears weekWindow : ℕ)
    (aggFunc : String) (q : Option ℚ) : Except String (List (Option ℤ)) :=
  lagOutput rows ((weekLagAll nYears weekWindow).map (fun w => 168 * w)) aggFunc q

/-- Model of same_day_hour_lag: day offsets, timedelta(days=d) = 24 * d hours. -/
def sameDayHourLag (rows : List (ℤ × ℚ)) (nYears dayWindow : ℕ)
    (aggFunc : String) (q : Option ℚ) : Except String (List (Option ℤ)) :=
  lagOutput rows ((dayLagAll nYears dayWindow).map (fun d => 24 * d)) aggFunc q

/-- Row-level description of same_day_hour_lag with n_years = 3, day_window = 1 and
    agg_func = "mean", written from the claim's words: each row receives the rounded
    arithmetic mean of exactly the available (non-missing) historical offset values,
    and a missing result when no offset value is available. -/
def sameDayHourLagMeanSpec (rows : List (ℤ × ℚ)) : List (Option ℤ) :=
  rows.map (fun r =>
    let avail := ((dayLagAll 3 1).map (fun d => 24 * d)).filterMap
      (fun h => if listMinD (rows.map Prod.fst) ≤ r.1 - h then lookupVal rows (r.1 - h) else none)
    if avail.isEmpty then none else some (pyRound (avail.sum / (avail.length : ℚ))))

/-- One output column of the moving-aggregate family over the hourly grid produced by
    asfreq("H"): the row at grid hour t aggregates value.shift(h) = value at hour t - h
    for each retained hour lag (a shift beyond the data or onto a gap is missing). -/
def movingColumn (rows : List (ℤ × ℚ)) (grid : List ℤ) (lags : List ℤ)
    (agg : List (Option ℚ) → Option ℤ) : List (Option ℤ) :=
  grid.map (fun t => agg (lags.map (fun h => lookupVal rows (t - h))))

/-- Hour lags of the i-th moving feature, already filtered by the forecast-creation-time
    guard: (week_lag_start + w) * 24 * 7 for w in range(window_size), kept only when
    strictly greater than max_diff = max(index) - forecast_creation_time in hours. -/
def movingLags (windowSize startWeek : ℕ) (i : ℕ) (maxDiff : ℤ) : List ℤ :=
  (((pyRange 0 (windowSize : ℤ)).map (fun w => ((startWeek : ℤ) + (i : ℤ) + w) * 24 * 7)).filter
    (fun h => maxDiff < h))

/-- Model of same_day_hour_moving_average.  Columns are built on the asfreq("H") grid;
    a feature whose filtered hour-lag list is empty is skipped entirely (the column is
    omitted), since both the tmp-column construction and the output assignment sit
    inside the "if len(hour_lags) > 0" guard. -/
def movingAverage (rows : List (ℤ × ℚ)) (windowSize startWeek avgCount : ℕ)
    (fct : ℤ) : List (String × List (Option ℤ)) :=
  let ts := rows.map Prod.fst
  let minT := listMinD ts
  let maxT := listMaxD ts
  let grid := pyRange minT (maxT + 1)
  let maxDiff := maxT - fct
  (List.range avgCount).foldl
    (fun acc i =>
      let lags := movingLags windowSize startWeek i maxDiff
      if lags.isEmpty then acc
      else acc ++ [("moving_average_lag_" ++ toString (startWeek + i),
                    movingColumn rows grid lags meanRow)])
    []

/-- Model of same_day_hour_moving_std, guarded exactly like moving_average. -/
def movingStd (rows : List (ℤ × ℚ)) (windowSize startWeek stdCount : ℕ)
    (fct : ℤ) : List (String × List (Option ℤ)) :=
  let ts := rows.map Prod.fst
  let minT := listMinD ts
  let maxT := listMaxD ts
  let grid := pyRange minT (maxT + 1)
  let maxDiff := maxT - fct
  (List.range stdCount).foldl
    (fun acc i =>
      let lags := movingLags windowSize startWeek i maxDiff
      if lags.isEmpty then acc
      else acc ++ [("moving_std_lag_" ++ toString (startWeek + i),
                    movingColumn rows grid lags stdRow)])
    []

/-- Model of same_day_hour_moving_quantile.  In the source, only the tmp-column
    construction is inside the "if len(hour_lags) > 0" guard; the assignment
    df[output_col] = round(tmp_df[tmp_col_all].quantile(q, axis=1)) runs on every
    iteration.  The state component carries the last constructed tmp columns; when the
    first feature already has an empty filtered lag list, tmp_df was never created and
    the assignment raises NameError. -/
def movingQuantile (rows : List (ℤ × ℚ)) (windowSize startWeek quantileCount : ℕ)
    (qv : ℚ) (fct : ℤ) : Except String (List (String × List (Option ℤ))) :=
  let ts := rows.map Prod.fst
  let minT := listMinD ts
  let maxT := listMaxD ts
  let grid := pyRange minT (maxT + 1)
  let maxDiff := maxT - fct
  ((List.range quantileCount).foldl
    (fun acc i => do
      let (st, out) ← acc
      let lags := movingLags windowSize startWeek i maxDiff
      let st' := if lags.isEmpty then st else some lags
      match st' with
      | none => Except.error "NameError: name tmp_df is not defined"
      | some ls =>
          pure (st', out ++ [("moving_quatile_lag_" ++ toString (startWeek + i),
                              movingColumn rows grid ls (quantRow qv))]))
    (Except.ok (none, []))).map Prod.snd

/-- One iteration of the feature loop of same_day_hour_moving_agg.  As in
    moving_quantile, the aggregation assignments (lines 824-829) sit outside the
    "if len(hour_lags) > 0" guard: a supported (agg_func, q) combination reads the
    carried tmp columns and raises NameError when they were never created, while an
    unsupported combination assigns nothing and raises nothing. -/
def movingAggStep (rows : List (ℤ × ℚ)) (grid : List ℤ) (windowSize startWeek : ℕ)
    (maxDiff : ℤ) (aggFunc : String) (q : Option ℚ)
    (acc : Except String (Option (List ℤ) × List (String × List (Option ℤ)))) (i : ℕ) :
    Except String (Option (List ℤ) × List (String × List (Option ℤ))) := do
  let (st, out) ← acc
  let lags := movingLags windowSize startWeek i maxDiff
  let st' := if lags.isEmpty then st else some lags
  if aggFunc = "mean" ∧ q = none then
    match st' with
    | none => Except.error "NameError: name tmp_df is not defined"
    | some ls =>
        pure (st', out ++ [("moving_agg_lag_" ++ toString (startWeek + i),
                            movingColumn rows grid ls meanRow)])
  else if aggFunc = "quantile" ∧ q ≠ none then
    match st' with
    | none => Except.error "NameError: name tmp_df is not defined"
    | some ls =>
        pure (st', out ++ [("moving_agg_lag_" ++ toString (startWeek + i),
                            movingColumn rows grid ls (quantRow (q.getD 0)))])
  else if aggFunc = "std" ∧ q = none then
    match st' with
    | none => Except.error "NameError: name tmp_df is not defined"
    | some ls =>
        pure (st', out ++ [("moving_agg_lag_" ++ toString (startWeek + i),
                            movingColumn rows grid ls stdRow)])
  else pure (st', out)

/-- Model of same_day_hour_moving_agg: fold movingAggStep over the feature count. -/
def movingAgg (rows : List (ℤ × ℚ)) (windowSize startWeek count : ℕ)
    (fct : ℤ) (aggFunc : String) (q : Option ℚ) :
    Except String (List (String × List (Option ℤ))) :=
  let ts := rows.map Prod.fst
  let minT := listMinD ts
  let maxT := listMaxD ts
  ((List.range count).foldl
    (movingAggStep rows (pyRange minT (maxT + 1)) windowSize startWeek (maxT - fct) aggFunc q)
    (Except.ok (none, []))).map Prod.snd

/-- Helper for pdUnique: keep the values not yet seen, in order of first appearance. -/
def pdUniqueAux : List ℕ → List ℕ → List ℕ
  | [], _ => []
  | x :: xs, seen =>
      if x ∈ seen then pdUniqueAux xs seen else x :: pdUniqueAux xs (x :: seen)

/-- Model of pandas Series.unique(): distinct values in order of first appearance. -/
def pdUnique (l : List ℕ) : List ℕ := pdUniqueAux l []

/-- Model of itertools.product over two lists: all pairs, first component outermost. -/
def listProduct (l1 l2 : List ℕ) : List (ℕ × ℕ) :=
  l1.flatMap (fun a => l2.map (fun b => (a, b)))

/-- Model of gen_sequence on one grain: data_array = the per-row feature payloads in
    frame order; end_timestep defaults to df.shape[0]; windows are
    data_array[start : start + seq_len] for start in
    range(start_timestep, end_timestep - seq_len + 2) (a slice past the end of the
    array is silently truncated, as in numpy). -/
def genSequence {ρ : Type} (rowsData : List ρ) (seqLen : ℕ) (startT : ℤ)
    (endT : Option ℤ) : List (List ρ) :=
  let e := endT.getD (rowsData.length : ℤ)
  (pyRange startT (e - (seqLen : ℤ) + 2)).map
    (fun i => (rowsData.drop i.toNat).take seqLen)

/-- Model of gen_sequence_array: iterate itertools.product of the unique values of the
    two grain columns (order of first appearance), filter the frame to each pair, run
    gen_sequence there, and concatenate all resulting windows. -/
def genSequenceArray {ρ : Type} (df : List (ℕ × ℕ × ρ)) (seqLen : ℕ) (startT : ℤ)
    (endT : Option ℤ) : List (List ρ) :=
  (listProduct (pdUnique (df.map (fun r => r.1))) (pdUnique (df.map (fun r => r.2.1)))).flatMap
    (fun g => genSequence ((df.filter (fun r => r.1 = g.1 ∧ r.2.1 = g.2)).map (fun r => r.2.2))
      seqLen startT endT)

/-- Entity iteration order of gen_sequence_array: the Cartesian product of the unique
    values of the two grain columns, each in order of first appearance. -/
def genSeqEntityOrder (g1 g2 : List ℕ) : List (ℕ × ℕ) :=
  listProduct (pdUnique g1) (pdUnique g2)

/-- Lexicographic order on grain-key pairs, the key order used by pandas groupby. -/
def pairLe (a b : ℕ × ℕ) : Prop := a.1 < b.1 ∨ (a.1 = b.1 ∧ a.2 ≤ b.2)

/-- Strict lexicographic order on grain-key pairs. -/
def pairLt (a b : ℕ × ℕ) : Prop := a.1 < b.1 ∨ (a.1 = b.1 ∧ a.2 < b.2)

instance : DecidableRel pairLe := fun a b => by unfold pairLe; infer_instance

instance : DecidableRel pairLt := fun a b => by unfold pairLt; infer_instance

instance : IsTotal (ℕ × ℕ) pairLe :=
  ⟨fun a b => by unfold pairLe; omega⟩

instance : IsTrans (ℕ × ℕ) pairLe :=
  ⟨fun a b c hab hbc => by unfold pairLe at *; omega⟩

instance : IsAntisymm (ℕ × ℕ) pairLe :=
  ⟨fun a b hab hba => by
    unfold pairLe at *
    have h1 : a.1 = b.1 := by omega
    have h2 : a.2 = b.2 := by omega
    exact Prod.ext h1 h2⟩

/-- Entity iteration order of static_feature_array: pandas groupby([grain1, grain2])
    visits the distinct observed key pairs in sorted (lexicographic) order. -/
def staticEntityOrder (g1 g2 : List ℕ) : List (ℕ × ℕ) :=
  List.insertionSort pairLe ((g1.zip g2).dedup)

/-- Order the claim ascribes to both builders, written from its words: the Cartesian
    product of the sorted unique values of the two grain-key columns. -/
def claimedEntityOrder (g1 g2 : List ℕ) : List (ℕ × ℕ) :=
  listProduct (List.insertionSort (fun a b : ℕ => a ≤ b) (pdUnique g1))
    (List.insertionSort (fun a b : ℕ => a ≤ b) (pdUnique g2))

/-- Example frame for claim C3: two entities with ten rows each. -/
def twoGrainTen : List (ℕ × ℕ × ℕ) :=
  ((List.range 10).map (fun i => (0, 0, i))) ++ ((List.range 10).map (fun i => (1, 1, i)))

/-- Supported (agg_func, q) combinations of the aggregation dispatch chains. -/
def aggSupported (aggFunc : String) (q : Option ℚ) : Prop :=
  (aggFunc = "mean" ∧ q = none) ∨ (aggFunc = "quantile" ∧ q ≠ none) ∨
    (aggFunc = "std" ∧ q = none)

instance (f : String) (q : Option ℚ) : Decidable (aggSupported f q) := by
  unfold aggSupported
  infer_instance

theorem mem_pyRange {a b x : ℤ} : x ∈ pyRange a b ↔ a ≤ x ∧ x < b := by
  simp only [pyRange, List.mem_map, List.mem_range]
  constructor
  · rintro ⟨i, hi, rfl⟩
    omega
  · rintro ⟨h1, h2⟩
    exact ⟨(x - a).toNat, by omega, by omega⟩

theorem pyRange_ne_nil {a b : ℤ} (h : a < b) : pyRange a b ≠ [] := by
  intro hnil
  have : a ∈ pyRange a b := mem_pyRange.mpr ⟨le_refl a, h⟩
  rw [hnil] at this
  exact absurd this (List.not_mem_nil a)

theorem foldl_min_le_init (xs : List ℤ) (a : ℤ) : xs.foldl min a ≤ a := by
  induction xs generalizing a with
  | nil => exact le_refl a
  | cons x xs ih => exact le_trans (ih (min a x)) (min_le_left a x)

theorem foldl_min_le_mem {xs : List ℤ} {x : ℤ} (h : x ∈ xs) (a : ℤ) :
    xs.foldl min a ≤ x := by
  induction xs generalizing a with
  | nil => cases h
  | cons y ys ih =>
    rcases List.mem_cons.mp h with rfl | hmem
    · exact le_trans (foldl_min_le_init ys (min a x)) (min_le_right a x)
    · exact ih hmem (min a y)

theorem foldl_min_mem (xs : List ℤ) (a : ℤ) :
    xs.foldl min a = a ∨ xs.foldl min a ∈ xs := by
  induction xs generalizing a with
  | nil => exact Or.inl rfl
  | cons y ys ih =>
    have hfold : (y :: ys).foldl min a = ys.foldl min (min a y) := rfl
    rcases ih (min a y) with h | h
    · rcases le_total a y with hay | hya
      · left; rw [hfold, h, min_eq_left hay]
      · right; rw [hfold, h, min_eq_right hya]; exact List.mem_cons_self y ys
    · right; rw [hfold]; exact List.mem_cons_of_mem y h

theorem foldl_max_init_le (xs : List ℤ) (a : ℤ) : a ≤ xs.foldl max a := by
  induction xs generalizing a with
  | nil => exact le_refl a
  | cons x xs ih => exact le_trans (le_max_left a x) (ih (max a x))

theorem mem_le_foldl_max {xs : List ℤ} {x : ℤ} (h : x ∈ xs) (a : ℤ) :
    x ≤ xs.foldl max a := by
  induction xs generalizing a with
  | nil => cases h
  | cons y ys ih =>
    rcases List.mem_cons.mp h with rfl | hmem
    · exact le_trans (le_max_right a x) (foldl_max_init_le ys (max a x))
    · exact ih hmem (max a y)

theorem foldl_max_mem (xs : List ℤ) (a : ℤ) :
    xs.foldl max a = a ∨ xs.foldl max a ∈ xs := by
  induction xs generalizing a with
  | nil => exact Or.inl rfl
  | cons y ys ih =>
    have hfold : (y :: ys).foldl max a = ys.foldl max (max a y) := rfl
    rcases ih (max a y) with h | h
    · rcases le_total a y with hay | hya
      · right; rw [hfold, h, max_eq_right hay]; exact List.mem_cons_self y ys
      · left; rw [hfold, h, max_eq_left hya]
    · right; rw [hfold]; exact List.mem_cons_of_mem y h

theorem listMinD_le {l : List ℤ} {x : ℤ} (h : x ∈ l) : listMinD l ≤ x := by
  cases l with
  | nil => cases h
  | cons y ys =>
    rcases List.mem_cons.mp h with rfl | hmem
    · exact foldl_min_le_init ys x
    · exact foldl_min_le_mem hmem y

theorem le_listMaxD {l : List ℤ} {x : ℤ} (h : x ∈ l) : x ≤ listMaxD l := by
  cases l with
  | nil => cases h
  | cons y ys =>
    rcases List.mem_cons.mp h with rfl | hmem
    · exact foldl_max_init_le ys x
    · exact mem_le_foldl_max hmem y

theorem listMaxD_mem {l : List ℤ} (h : l ≠ []) : listMaxD l ∈ l := by
  cases l with
  | nil => exact absurd rfl h
  | cons y ys =>
    show ys.foldl max y ∈ y :: ys
    rcases foldl_max_mem ys y with heq | hmem
    · rw [heq]; exact List.mem_cons_self y ys
    · exact List.mem_cons_of_mem y hmem

theorem listMinD_mem {l : List ℤ} (h : l ≠ []) : listMinD l ∈ l := by
  cases l with
  | nil => exact absurd rfl h
  | cons y ys =>
    show ys.foldl min y ∈ y :: ys
    rcases foldl_min_mem ys y with heq | hmem
    · rw [heq]; exact List.mem_cons_self y ys
    · exact List.mem_cons_of_mem y hmem

theorem lookupVal_isSome {rows : List (ℤ × ℚ)} {t : ℤ}
    (h : t ∈ rows.map Prod.fst) : (lookupVal rows t).isSome := by
  induction rows with
  | nil => simp at h
  | cons r rs ih =>
    by_cases hr : r.1 = t
    · simp [lookupVal, List.find?_cons, hr]
    · have hmem : t ∈ rs.map Prod.fst := by
        rcases List.mem_map.mp h with ⟨p, hp, hpt⟩
        rcases List.mem_cons.mp hp with rfl | hp'
        · exact absurd hpt hr
        · exact List.mem_map.mpr ⟨p, hp', hpt⟩
      have hbeq : (r.1 == t) = false := by simp [hr]
      simpa [lookupVal, List.find?_cons, hbeq] using ih hmem

theorem mem_weekLagAll {nYears weekWindow : ℕ} {x : ℤ} :
    x ∈ weekLagAll nYears weekWindow ↔
      ∃ y : ℕ, y < nYears ∧ ∃ k : ℤ, -(weekWindow : ℤ) ≤ k ∧ k ≤ (weekWindow : ℤ) ∧
        x = 52 * ((y : ℤ) + 1) + k := by
  simp only [weekLagAll, List.mem_flatMap, List.mem_map, List.mem_range, mem_pyRange]
  constructor
  · rintro ⟨y, hy, v, ⟨hv1, hv2⟩, rfl⟩
    exact ⟨y, hy, v - 52, by omega, by omega, by ring_nf⟩
  · rintro ⟨y, hy, k, hk1, hk2, rfl⟩
    exact ⟨y, hy, k + 52, ⟨by omega, by omega⟩, by ring⟩

theorem mem_dayLagAll {nYears dayWindow : ℕ} {x : ℤ} :
    x ∈ dayLagAll nYears dayWindow ↔
      ∃ y : ℕ, y < nYears ∧ ∃ k : ℤ, -(dayWindow : ℤ) ≤ k ∧ k ≤ (dayWindow : ℤ) ∧
        x = 365 * ((y : ℤ) + 1) + k := by
  simp only [dayLagAll, List.mem_flatMap, List.mem_map, List.mem_range, mem_pyRange]
  constructor
  · rintro ⟨y, hy, v, ⟨hv1, hv2⟩, rfl⟩
    exact ⟨y, hy, v - 365, by omega, by omega, by ring_nf⟩
  · rintro ⟨y, hy, k, hk1, hk2, rfl⟩
    exact ⟨y, hy, k + 365, ⟨by omega, by omega⟩, by ring⟩

theorem getD_map {α β : Type} (f : α → β) (l : List α) (j : ℕ) (hj : j < l.length) (d : β) :
    (l.map f).getD j d = f l[j] := by
  induction l generalizing j with
  | nil => cases hj
  | cons x xs ih =>
    cases j with
    | zero => rfl
    | succ j' => exact ih j' (Nat.lt_of_succ_lt_succ hj)

theorem filterMap_filter_eq_filterMap {α β : Type} (p : α → Bool) (g : α → Option β)
    (l : List α) (h : ∀ a ∈ l, p a = false → g a = none) :
    (l.filter p).filterMap g = l.filterMap g := by
  induction l with
  | nil => rfl
  | cons x xs ih =>
    have ih' := ih (fun a ha => h a (List.mem_cons_of_mem x ha))
    by_cases hx : p x
    · rw [List.filter_cons_of_pos hx]
      simp only [List.filterMap_cons, ih']
    · rw [List.filter_cons_of_neg (by simpa using hx)]
      rw [ih']
      have hnone := h x (List.mem_cons_self x xs) (by simpa using hx)
      simp only [List.filterMap_cons, hnone]

theorem mem_pdUniqueAux {l seen : List ℕ} {a : ℕ} :
    a ∈ pdUniqueAux l seen ↔ a ∈ l ∧ a ∉ seen := by
  induction l generalizing seen with
  | nil => simp [pdUniqueAux]
  | cons x xs ih =>
    by_cases hx : x ∈ seen
    · rw [pdUniqueAux, if_pos hx, ih]
      constructor
      · rintro ⟨hm, hns⟩
        exact ⟨List.mem_cons_of_mem x hm, hns⟩
      · rintro ⟨hm, hns⟩
        rcases List.mem_cons.mp hm with rfl | hm'
        · exact absurd hx hns
        · exact ⟨hm', hns⟩
    · rw [pdUniqueAux, if_neg hx]
      by_cases hax : a = x
      · subst hax
        simp [hx]
      · simp only [List.mem_cons, hax, false_or, ih]

theorem mem_pdUnique {l : List ℕ} {a : ℕ} : a ∈ pdUnique l ↔ a ∈ l := by
  rw [pdUnique, mem_pdUniqueAux]
  simp

theorem nodup_pdUniqueAux (l : List ℕ) : ∀ seen, (pdUniqueAux l seen).Nodup := by
  induction l with
  | nil => intro seen; simp [pdUniqueAux]
  | cons x xs ih =>
    intro seen
    by_cases hx : x ∈ seen
    · rw [pdUniqueAux, if_pos hx]
      exact ih seen
    · rw [pdUniqueAux, if_neg hx]
      refine List.Nodup.cons ?_ (ih (x :: seen))
      intro hmem
      exact (mem_pdUniqueAux.mp hmem).2 (List.mem_cons_self x seen)

theorem nodup_pdUnique (l : List ℕ) : (pdUnique l).Nodup := nodup_pdUniqueAux l []

theorem mem_listProduct {l1 l2 : List ℕ} {p : ℕ × ℕ} :
    p ∈ listProduct l1 l2 ↔ p.1 ∈ l1 ∧ p.2 ∈ l2 := by
  cases p with
  | mk a b =>
    simp only [listProduct, List.mem_flatMap, List.mem_map, Prod.mk.injEq]
    constructor
    · rintro ⟨x, hx, y, hy, rfl, rfl⟩
      exact ⟨hx, hy⟩
    · rintro ⟨ha, hb⟩
      exact ⟨a, ha, b, hb, rfl, rfl⟩

theorem pairwise_lt_listProduct {l1 l2 : List ℕ}
    (h1 : l1.Pairwise (· < ·)) (h2 : l2.Pairwise (· < ·)) :
    (listProduct l1 l2).Pairwise pairLt := by
  induction l1 with
  | nil => exact List.Pairwise.nil
  | cons x xs ih =>
    rcases List.pairwise_cons.mp h1 with ⟨hx, hxs⟩
    have hhead : (l2.map (fun b => (x, b))).Pairwise pairLt := by
      rw [List.pairwise_map]
      exact h2.imp (fun hab => Or.inr ⟨rfl, hab⟩)
    have htail : (listProduct xs l2).Pairwise pairLt := ih hxs
    have hcross : ∀ p ∈ l2.map (fun b => (x, b)), ∀ q ∈ listProduct xs l2, pairLt p q := by
      rintro p hp q hq
      rcases List.mem_map.mp hp with ⟨b, _, rfl⟩
      have hq1 : q.1 ∈ xs := (mem_listProduct.mp hq).1
      exact Or.inl (hx q.1 hq1)
    show ((l2.map (fun b => (x, b))) ++ listProduct xs l2).Pairwise pairLt
    exact List.pairwise_append.mpr ⟨hhead, htail, hcross⟩

theorem pairLt_ne {p q : ℕ × ℕ} (h : pairLt p q) : p ≠ q := by
  intro heq
  subst heq
  rcases h with h | ⟨_, h⟩ <;> exact lt_irrefl _ h

theorem insertionSort_eq_of_sorted {l : List ℕ} (h : l.Sorted (fun a b : ℕ => a ≤ b)) :
    List.insertionSort (fun a b : ℕ => a ≤ b) l = l :=
  List.eq_of_perm_of_sorted (List.perm_insertionSort _ l) (List.sorted_insertionSort _ l) h

set_option maxRecDepth 40000 in
/-- Claim C1: each output column of the moving-aggregate generators uses only values
    strictly before forecast_creation_time, candidate lags not exceeding max_diff are
    excluded, and a feature all of whose candidate lags are excluded produces no value
    (column omitted or all-missing).  The code violates the last part: in
    same_day_hour_moving_quantile (and same_day_hour_moving_agg) the output assignment
    sits outside the "if len(hour_lags) > 0" guard, so on an hourly series spanning
    hours 0..199 with forecast_creation_time at hour 24 (max_diff = 175), window_size 1,
    start_week 1 and quantile_count 1, the single candidate lag 168 is excluded and the
    call raises NameError instead of omitting the column. -/
theorem C1_moving_quantile_name_error :
    movingQuantile ((pyRange 0 200).map (fun t => (t, (t : ℚ)))) 1 1 1 (1 / 2) 24
      = Except.error "NameError: name tmp_df is not defined" := by
  rfl

/-- Claim C3: gen_sequence is claimed to yield one window of exactly seq_len rows per
    start index, so that gen_sequence_array on two entities with 10 rows each and
    seq_len 3 yields 16 sequences of shape (3, features).  The code's range bound
    range(start_timestep, end_timestep - seq_len + 2) with end_timestep defaulting to
    the row count yields 9 windows per entity, the last of which is truncated to 2
    rows: 18 sequences in total, one ragged per entity. -/
theorem C3_gen_sequence_array_ragged :
    (genSequenceArray twoGrainTen 3 0 none).length = 18
    ∧ ((genSequenceArray twoGrainTen 3 0 none).getD 8 []).length = 2
    ∧ (genSequence (List.range 10) 3 0 none).length = 9 := by
  refine ⟨by decide, by decide, by decide⟩

/-- Claim C4 as stated is false: the candidate offsets are not 52 * y + k for y in
    [0, n_years); with n_years = 1 and week_window = 0 the code produces [52] while the
    claimed set is [0] (and [365] versus [0] for days). -/
theorem C4_offsets_counterexample :
    weekLagAll 1 0 ≠ claimedWeekOffsets 1 0 ∧ dayLagAll 1 0 ≠ claimedDayOffsets 1 0 := by
  exact ⟨by decide, by decide⟩

/-- Claim C4 (amended): the candidate offset sets are 52 * (y + 1) + k for y in
    [0, n_years) and k in [-week_window, week_window], and analogously
    365 * (y + 1) + k for day offsets. -/
theorem C4_offsets_amended (nYears weekWindow dayWindow : ℕ) :
    (∀ x : ℤ, x ∈ weekLagAll nYears weekWindow ↔
       ∃ y : ℕ, y < nYears ∧ ∃ k : ℤ, -(weekWindow : ℤ) ≤ k ∧ k ≤ (weekWindow : ℤ) ∧
         x = 52 * ((y : ℤ) + 1) + k) ∧
    (∀ x : ℤ, x ∈ dayLagAll nYears dayWindow ↔
       ∃ y : ℕ, y < nYears ∧ ∃ k : ℤ, -(dayWindow : ℤ) ≤ k ∧ k ≤ (dayWindow : ℤ) ∧
         x = 365 * ((y : ℤ) + 1) + k) :=
  ⟨fun _ => mem_weekLagAll, fun _ => mem_dayLagAll⟩

theorem C4_offsets_amended_witness : 104 ∈ weekLagAll 2 1 ∧ 731 ∈ dayLagAll 2 1 :=
  ⟨((C4_offsets_amended 2 1 1).1 104).mpr ⟨1, by decide, 0, by decide, by decide, by decide⟩,
   ((C4_offsets_amended 2 1 1).2 731).mpr ⟨1, by decide, 1, by decide, by decide, by decide⟩⟩

/-- Claim C10: day_type without a holiday column only returns codes in {0, 2, 4, 5, 6};
    the holiday codes 7 and 8 cannot appear. -/
theorem C10_day_type_codes (dows : List ℕ) (hd : ∀ d ∈ dows, d ≤ 6) :
    ∀ x ∈ dayTypeNoHoliday dows, x = 0 ∨ x = 2 ∨ x = 4 ∨ x = 5 ∨ x = 6 := by
  intro x hx
  rcases List.mem_map.mp hx with ⟨d, hdmem, rfl⟩
  have hle := hd d hdmem
  by_cases h1 : d = 1
  · subst h1; simp
  · by_cases h3 : d = 3
    · subst h3; simp
    · have h13 : ¬(d = 1 ∨ d = 3) := by tauto
      rw [if_neg h13]
      omega

theorem C10_day_type_codes_witness :
    (∀ d ∈ [0, 1, 2, 3, 4, 5, 6], d ≤ 6) ∧
    (∀ x ∈ dayTypeNoHoliday [0, 1, 2, 3, 4, 5, 6], x = 0 ∨ x = 2 ∨ x = 4 ∨ x = 5 ∨ x = 6) :=
  ⟨by decide, C10_day_type_codes [0, 1, 2, 3, 4, 5, 6] (by decide)⟩

/-- Claim C8: time_of_year equals ((day_of_year - 1) * 24 + hour) divided by
    (hours_in_year - 1) with hours_in_year = 366 * 24 in leap years and 365 * 24
    otherwise, always lies in [0, 1], and is exactly 1 at December 31, 23:00 of a
    non-leap year. -/
theorem C8_time_of_year (y doy hr : ℕ) (hd1 : 1 ≤ doy) (hd2 : doy ≤ yearLength y)
    (hh : hr ≤ 23) :
    timeOfYearAt y doy hr
        = (((doy : ℚ) - 1) * 24 + (hr : ℚ))
            / ((if isLeap y then (366 : ℚ) * 24 else (365 : ℚ) * 24) - 1)
      ∧ 0 ≤ timeOfYearAt y doy hr ∧ timeOfYearAt y doy hr ≤ 1
      ∧ (isLeap y = false → doy = 365 → hr = 23 → timeOfYearAt y doy hr = 1) := by
  have hL : yearLength y = 365 ∨ yearLength y = 366 := by
    unfold yearLength
    by_cases h : isLeap y <;> simp [h]
  have hden : (0 : ℚ) < (yearLength y : ℚ) * 24 - 1 := by
    rcases hL with h | h <;> rw [h] <;> norm_num
  have hnum0 : (0 : ℚ) ≤ ((doy : ℚ) - 1) * 24 + (hr : ℚ) := by
    have : (1 : ℚ) ≤ (doy : ℚ) := by exact_mod_cast hd1
    have : (0 : ℚ) ≤ (doy : ℚ) - 1 := by linarith
    positivity
  refine ⟨?_, ?_, ?_, ?_⟩
  · unfold timeOfYearAt yearLength
    by_cases h : isLeap y <;> simp [h]
  · exact div_nonneg hnum0 (le_of_lt hden)
  · rw [timeOfYearAt, div_le_one hden]
    have hdq : (doy : ℚ) ≤ (yearLength y : ℚ) := by exact_mod_cast hd2
    have hhq : (hr : ℚ) ≤ 23 := by exact_mod_cast hh
    nlinarith
  · intro hleap h365 h23
    subst h365; subst h23
    rw [timeOfYearAt, yearLength, hleap]
    norm_num

theorem C8_time_of_year_witness :
    (1 ≤ 365 ∧ 365 ≤ yearLength 2021 ∧ 23 ≤ 23) ∧ timeOfYearAt 2021 365 23 = 1 :=
  ⟨⟨by decide, by decide, by decide⟩,
   (C8_time_of_year 2021 365 23 (by decide) (by decide) (by decide)).2.2.2 (by decide) rfl rfl⟩

/-- Claim C2 as stated is false for same_week_day_hour_lag (and same_day_hour_lag):
    with an unsupported combination such as agg_func = "quantile" and q = None, the
    output column is never assigned, and the final df[[output_colname]] selection
    raises KeyError instead of returning a result without the column. -/
theorem C2_lag_unsupported_raises :
    sameWeekDayHourLag [(0, 5)] 3 1 "quantile" none
      = Except.error "KeyError: output column not in index" := by
  rfl

theorem lagOutput_error_of_unsupported (rows : List (ℤ × ℚ)) (hs : List ℤ)
    (f : String) (q : Option ℚ) (h : ¬ aggSupported f q) :
    ∃ msg, lagOutput rows hs f q = Except.error msg := by
  have h1 : ¬(f = "mean" ∧ q = none) := fun hc => h (Or.inl hc)
  have h2 : ¬(f = "quantile" ∧ q ≠ none) := fun hc => h (Or.inr (Or.inl hc))
  have h3 : ¬(f = "std" ∧ q = none) := fun hc => h (Or.inr (Or.inr hc))
  unfold lagOutput
  by_cases hr : lagLookupRaises rows hs
  · rw [if_pos hr]
    exact ⟨_, rfl⟩
  · rw [if_neg hr, if_neg h1, if_neg h2, if_neg h3]
    exact ⟨_, rfl⟩

theorem movingAggStep_unsupported (rows : List (ℤ × ℚ)) (grid : List ℤ)
    (windowSize startWeek : ℕ) (maxDiff : ℤ) (f : String) (q : Option ℚ)
    (h : ¬ aggSupported f q) (st : Option (List ℤ))
    (out : List (String × List (Option ℤ))) (i : ℕ) :
    ∃ st', movingAggStep rows grid windowSize startWeek maxDiff f q
        (Except.ok (st, out)) i = Except.ok (st', out) := by
  have h1 : ¬(f = "mean" ∧ q = none) := fun hc => h (Or.inl hc)
  have h2 : ¬(f = "quantile" ∧ q ≠ none) := fun hc => h (Or.inr (Or.inl hc))
  have h3 : ¬(f = "std" ∧ q = none) := fun hc => h (Or.inr (Or.inr hc))
  refine ⟨if (movingLags windowSize startWeek i maxDiff).isEmpty then st
          else some (movingLags windowSize startWeek i maxDiff), ?_⟩
  unfold movingAggStep
  simp only [if_neg h1, if_neg h2, if_neg h3]
  rfl

theorem movingAgg_foldl_unsupported (rows : List (ℤ × ℚ)) (grid : List ℤ)
    (windowSize startWeek : ℕ) (maxDiff : ℤ) (f : String) (q : Option ℚ)
    (h : ¬ aggSupported f q) (l : List ℕ) :
    ∀ (st : Option (List ℤ)) (out : List (String × List (Option ℤ))),
      ∃ st', l.foldl (movingAggStep rows grid windowSize startWeek maxDiff f q)
          (Except.ok (st, out)) = Except.ok (st', out) := by
  induction l with
  | nil => exact fun st out => ⟨st, rfl⟩
  | cons i l' ih =>
    intro st out
    obtain ⟨st1, hst1⟩ :=
      movingAggStep_unsupported rows grid windowSize startWeek maxDiff f q h st out i
    obtain ⟨st2, hst2⟩ := ih st1 out
    refine ⟨st2, ?_⟩
    rw [List.foldl_cons, hst1, hst2]

/-- Claim C2 (amended): with an unsupported (agg_func, q) combination,
    same_day_hour_moving_agg indeed raises nothing and simply returns a result with no
    aggregation column, but same_week_day_hour_lag and same_day_hour_lag raise KeyError
    at their final df[[output_colname]] selection because that column was never
    created. -/
theorem C2_unsupported_agg_amended (rows : List (ℤ × ℚ))
    (nYearsW weekWindow nYearsD dayWindow windowSize startWeek count : ℕ)
    (fct : ℤ) (f : String) (q : Option ℚ) (h : ¬ aggSupported f q) :
    (∃ msg, sameWeekDayHourLag rows nYearsW weekWindow f q = Except.error msg) ∧
    (∃ msg, sameDayHourLag rows nYearsD dayWindow f q = Except.error msg) ∧
    movingAgg rows windowSize startWeek count fct f q = Except.ok [] := by
  refine ⟨lagOutput_error_of_unsupported _ _ _ _ h,
          lagOutput_error_of_unsupported _ _ _ _ h, ?_⟩
  simp only [movingAgg]
  obtain ⟨st', hst⟩ := movingAgg_foldl_unsupported rows
    (pyRange (listMinD (rows.map Prod.fst)) (listMaxD (rows.map Prod.fst) + 1))
    windowSize startWeek (listMaxD (rows.map Prod.fst) - fct) f q h
    (List.range count) none []
  rw [hst]
  rfl

theorem C2_unsupported_agg_amended_witness :
    (¬ aggSupported "quantile" none) ∧
    (∃ msg, sameWeekDayHourLag [(0, 5)] 3 1 "quantile" none = Except.error msg) ∧
    movingAgg [(0, 5)] 4 9 3 0 "quantile" none = Except.ok [] := by
  refine ⟨by decide, ?_, ?_⟩
  · exact (C2_unsupported_agg_amended [(0, 5)] 3 1 3 1 4 9 3 0 "quantile" none
      (by decide)).1
  · exact (C2_unsupported_agg_amended [(0, 5)] 3 1 3 1 4 9 3 0 "quantile" none
      (by decide)).2.2

theorem lagLookupRaises_false_of_hourly (rows : List (ℤ × ℚ)) (t0 : ℤ) (n : ℕ)
    (hts : rows.map Prod.fst = pyRange t0 (t0 + (n : ℤ)))
    (lagHours : List ℤ) (hpos : ∀ h ∈ lagHours, 0 ≤ h) :
    lagLookupRaises rows lagHours = false := by
  unfold lagLookupRaises
  apply List.any_eq_false.mpr
  intro h hmem
  rw [Bool.not_eq_true]
  apply List.any_eq_false.mpr
  intro r hr
  rw [Bool.not_eq_true]
  by_cases hmask : listMinD (rows.map Prod.fst) ≤ r.1 - h
  · have hpos' : 0 ≤ h := hpos h (List.mem_of_mem_filter hmem)
    have hne : rows.map Prod.fst ≠ [] := by
      intro hnil
      have : r.1 ∈ rows.map Prod.fst := List.mem_map.mpr ⟨r, hr, rfl⟩
      rw [hnil] at this
      exact absurd this (List.not_mem_nil _)
    have hmin0 : t0 ≤ listMinD (rows.map Prod.fst) := by
      have hmm : listMinD (rows.map Prod.fst) ∈ pyRange t0 (t0 + (n : ℤ)) := by
        rw [← hts]
        exact listMinD_mem hne
      exact (mem_pyRange.mp hmm).1
    have hrlt : r.1 < t0 + (n : ℤ) := by
      have hrm : r.1 ∈ pyRange t0 (t0 + (n : ℤ)) := by
        rw [← hts]
        exact List.mem_map.mpr ⟨r, hr, rfl⟩
      exact (mem_pyRange.mp hrm).2
    have htmem : r.1 - h ∈ rows.map Prod.fst := by
      rw [hts]
      exact mem_pyRange.mpr ⟨le_trans hmin0 hmask, by omega⟩
    have hsome := lookupVal_isSome htmem
    rcases Option.isSome_iff_exists.mp hsome with ⟨v, hv⟩
    rw [hv]
    simp
  · simp [hmask]

theorem listMinD_le_of_map_fst {rows : List (ℤ × ℚ)} {r : ℤ × ℚ} (hr : r ∈ rows) :
    listMinD (rows.map Prod.fst) ≤ r.1 :=
  listMinD_le (List.mem_map.mpr ⟨r, hr, rfl⟩)

/-- Claim C9 as stated is false: on a gap-free uniformly hourly series (hours 0 and 1),
    n_years = 1 with week_window = 53 produces the negative candidate offset -1 week,
    whose shifted timestamps lie beyond the series maximum; they pass the minimum-bound
    mask yet are absent from the index, so the label lookup raises KeyError. -/
theorem C9_lookup_counterexample :
    ([((0 : ℤ), (1 : ℚ)), (1, 2)].map Prod.fst = pyRange 0 2) ∧
    lagLookupRaises [(0, 1), (1, 2)] ((weekLagAll 1 53).map (fun w => 168 * w)) = true := by
  exact ⟨by decide, by decide⟩

/-- Claim C9 (amended): on input satisfying the stated precondition (unique, gap-free,
    uniformly hourly timestamps), and for window parameters that keep every candidate
    offset nonnegative (week_window at most 52, day_window at most 365), every
    offset-shifted timestamp at or after the series minimum is present in the index,
    so the label lookups of same_week_day_hour_lag and same_day_hour_lag never raise. -/
theorem C9_lookup_total_amended (rows : List (ℤ × ℚ)) (t0 : ℤ) (n : ℕ)
    (hts : rows.map Prod.fst = pyRange t0 (t0 + (n : ℤ)))
    (nYears weekWindow dayWindow : ℕ) (hW : weekWindow ≤ 52) (hD : dayWindow ≤ 365) :
    lagLookupRaises rows ((weekLagAll nYears weekWindow).map (fun w => 168 * w)) = false ∧
    lagLookupRaises rows ((dayLagAll nYears dayWindow).map (fun d => 24 * d)) = false := by
  constructor
  · apply lagLookupRaises_false_of_hourly rows t0 n hts
    intro h hmem
    rcases List.mem_map.mp hmem with ⟨w, hw, rfl⟩
    rcases mem_weekLagAll.mp hw with ⟨y, hy, k, hk1, hk2, rfl⟩
    have hy0 : (0 : ℤ) ≤ (y : ℤ) := Int.ofNat_nonneg y
    have hWz : (weekWindow : ℤ) ≤ 52 := by exact_mod_cast hW
    omega
  · apply lagLookupRaises_false_of_hourly rows t0 n hts
    intro h hmem
    rcases List.mem_map.mp hmem with ⟨d, hd, rfl⟩
    rcases mem_dayLagAll.mp hd with ⟨y, hy, k, hk1, hk2, rfl⟩
    have hy0 : (0 : ℤ) ≤ (y : ℤ) := Int.ofNat_nonneg y
    have hDz : (dayWindow : ℤ) ≤ 365 := by exact_mod_cast hD
    omega

theorem C9_lookup_total_amended_witness :
    ([((0 : ℤ), (1 : ℚ)), (1, 2)].map Prod.fst = pyRange 0 2) ∧
    lagLookupRaises [(0, 1), (1, 2)] ((weekLagAll 1 1).map (fun w => 168 * w)) = false ∧
    lagLookupRaises [(0, 1), (1, 2)] ((dayLagAll 1 1).map (fun d => 24 * d)) = false := by
  refine ⟨by decide, ?_, ?_⟩
  · exact (C9_lookup_total_amended [(0, 1), (1, 2)] 0 2 (by decide) 1 1 1
      (by decide) (by decide)).1
  · exact (C9_lookup_total_amended [(0, 1), (1, 2)] 0 2 (by decide) 1 1 1
      (by decide) (by decide)).2

theorem rowOfCols_lagColumns (rows : List (ℤ × ℚ)) (hs : List ℤ) (j : ℕ)
    (hj : j < rows.length) :
    rowOfCols (lagColumns rows hs) j
      = (hs.filter (fun h =>
            listMinD (rows.map Prod.fst) ≤ listMaxD (rows.map Prod.fst) - h)).map
          (fun h => if listMinD (rows.map Prod.fst) ≤ rows[j].1 - h
              then lookupVal rows (rows[j].1 - h) else none) := by
  simp only [rowOfCols, lagColumns, List.map_map]
  apply List.map_congr_left
  intro h _
  show (rows.map (fun r => if listMinD (rows.map Prod.fst) ≤ r.1 - h
      then lookupVal rows (r.1 - h) else none)).getD j none = _
  rw [getD_map _ rows j hj]

/-- Claim C5: same_day_hour_lag with n_years = 3, day_window = 1, agg_func = "mean"
    gives each row the rounded mean of exactly the available (non-missing) historical
    offset values, and a missing result (never zero) when no offset value is
    available.  The hypothesis states that no label lookup raises, which claim C9
    establishes for gap-free hourly input. -/
theorem C5_same_day_hour_lag_mean (rows : List (ℤ × ℚ))
    (hnr : lagLookupRaises rows ((dayLagAll 3 1).map (fun d => 24 * d)) = false) :
    sameDayHourLag rows 3 1 "mean" none = Except.ok (sameDayHourLagMeanSpec rows) := by
  unfold sameDayHourLag lagOutput
  rw [if_neg (by simp [hnr]), if_pos ⟨rfl, rfl⟩]
  congr 1
  apply List.ext_getElem
  · simp [sameDayHourLagMeanSpec]
  · intro i h1 h2
    have hi : i < rows.length := by simpa [sameDayHourLagMeanSpec] using h2
    rw [List.getElem_map, List.getElem_range]
    simp only [sameDayHourLagMeanSpec, List.getElem_map]
    rw [rowOfCols_lagColumns rows _ i hi]
    have hfm : ((List.map (fun d => (24 : ℤ) * d) (dayLagAll 3 1)).filter (fun h =>
          listMinD (rows.map Prod.fst) ≤ listMaxD (rows.map Prod.fst) - h)).filterMap
            (fun h => if listMinD (rows.map Prod.fst) ≤ rows[i].1 - h
                then lookupVal rows (rows[i].1 - h) else none)
        = (List.map (fun d => (24 : ℤ) * d) (dayLagAll 3 1)).filterMap
            (fun h => if listMinD (rows.map Prod.fst) ≤ rows[i].1 - h
                then lookupVal rows (rows[i].1 - h) else none) := by
      apply filterMap_filter_eq_filterMap
      intro a _ hpa
      have hnotle : ¬ listMinD (rows.map Prod.fst) ≤ listMaxD (rows.map Prod.fst) - a := by
        simpa using hpa
      have hrle : rows[i].1 ≤ listMaxD (rows.map Prod.fst) :=
        le_listMaxD (List.mem_map.mpr ⟨rows[i], List.getElem_mem hi, rfl⟩)
      exact if_neg (by omega)
    simp only [meanRow, List.filterMap_map, Function.id_comp, hfm]

theorem C5_same_day_hour_lag_mean_witness :
    lagLookupRaises [((0 : ℤ), (10 : ℚ)), (8736, 20)]
        ((dayLagAll 3 1).map (fun d => 24 * d)) = false ∧
    sameDayHourLag [(0, 10), (8736, 20)] 3 1 "mean" none
      = Except.ok (sameDayHourLagMeanSpec [(0, 10), (8736, 20)]) :=
  ⟨by decide, C5_same_day_hour_lag_mean [(0, 10), (8736, 20)] (by decide)⟩

/-- Claim C6: for each candidate offset of the lag functions, a row whose shifted
    timestamp precedes the series minimum is marked missing rather than raising, and
    the whole offset column is omitted exactly when the series maximum shifted by the
    offset precedes the series minimum, which (the series being nonempty) happens
    exactly when no row at all can satisfy the lookback. -/
theorem C6_insufficient_history (rows : List (ℤ × ℚ)) (lagHours : List ℤ)
    (hne : rows ≠ []) :
    (∀ h ∈ lagHours,
        (h ∉ (lagColumns rows lagHours).map Prod.fst ↔
          listMaxD (rows.map Prod.fst) - h < listMinD (rows.map Prod.fst))) ∧
    (∀ p ∈ lagColumns rows lagHours, ∀ j : ℕ, ∀ hj : j < rows.length,
        rows[j].1 - p.1 < listMinD (rows.map Prod.fst) → p.2.getD j none = none) ∧
    (∀ h : ℤ, listMaxD (rows.map Prod.fst) - h < listMinD (rows.map Prod.fst) ↔
        ∀ r ∈ rows, r.1 - h < listMinD (rows.map Prod.fst)) := by
  refine ⟨?_, ?_, ?_⟩
  · intro h hmem
    simp only [lagColumns, List.map_map, Function.comp_def, List.map_id']
    simp only [List.mem_filter, hmem, true_and, decide_eq_true_eq]
    omega
  · intro p hp j hj hlt
    simp only [lagColumns] at hp
    obtain ⟨h, _, rfl⟩ := List.mem_map.mp hp
    show (rows.map (fun r => if listMinD (rows.map Prod.fst) ≤ r.1 - h
        then lookupVal rows (r.1 - h) else none)).getD j none = none
    rw [getD_map _ rows j hj]
    exact if_neg (by omega)
  · intro h
    constructor
    · intro hlt r hr
      have hrle : r.1 ≤ listMaxD (rows.map Prod.fst) :=
        le_listMaxD (List.mem_map.mpr ⟨r, hr, rfl⟩)
      omega
    · intro hall
      have hmne : rows.map Prod.fst ≠ [] := by
        intro hm
        exact hne (List.map_eq_nil_iff.mp hm)
      obtain ⟨r, hr, hre⟩ := List.mem_map.mp (listMaxD_mem hmne)
      have := hall r hr
      omega

theorem C6_insufficient_history_witness :
    ([((0 : ℤ), (1 : ℚ)), (168, 2)] ≠ ([] : List (ℤ × ℚ))) ∧
    ((336 : ℤ) ∉ (lagColumns [(0, 1), (168, 2)] [168, 336]).map Prod.fst) := by
  refine ⟨by decide, ?_⟩
  exact ((C6_insufficient_history [(0, 1), (168, 2)] [168, 336] (by decide)).1 336
    (by decide)).mpr (by decide)

/-- Claim C7 as stated is false: gen_sequence_array iterates the Cartesian product of
    the unique grain values in order of first appearance (pandas unique), while
    static_feature_array (pandas groupby) visits observed key pairs in sorted order;
    with grain columns [2, 2, 1, 1] and [2, 1, 2, 1] the two entity orders differ, and
    neither claim conjunct (identical order, sorted product) holds for
    gen_sequence_array. -/
theorem C7_entity_order_counterexample :
    genSeqEntityOrder [2, 2, 1, 1] [2, 1, 2, 1] ≠ staticEntityOrder [2, 2, 1, 1] [2, 1, 2, 1]
    ∧ genSeqEntityOrder [2, 2, 1, 1] [2, 1, 2, 1] ≠ claimedEntityOrder [2, 2, 1, 1] [2, 1, 2, 1] := by
  exact ⟨by decide, by decide⟩

/-- Claim C7 (amended): when the unique values of each grain column appear in strictly
    increasing order and every pair of the Cartesian product actually occurs in the
    data, the entity order of static_feature_array coincides with that of
    gen_sequence_array, and both equal the Cartesian product of the sorted unique
    values, so the static rows align with the sequence-array entity blocks. -/
theorem C7_entity_order_amended (g1 g2 : List ℕ)
    (h1 : (pdUnique g1).Pairwise (· < ·)) (h2 : (pdUnique g2).Pairwise (· < ·))
    (hcov : ∀ p : ℕ × ℕ, p ∈ listProduct (pdUnique g1) (pdUnique g2) → p ∈ g1.zip g2) :
    staticEntityOrder g1 g2 = genSeqEntityOrder g1 g2 ∧
    genSeqEntityOrder g1 g2 = claimedEntityOrder g1 g2 := by
  have hP : (listProduct (pdUnique g1) (pdUnique g2)).Pairwise pairLt :=
    pairwise_lt_listProduct h1 h2
  have hPnodup : (listProduct (pdUnique g1) (pdUnique g2)).Nodup :=
    hP.imp pairLt_ne
  have hPsorted : (listProduct (pdUnique g1) (pdUnique g2)).Sorted pairLe :=
    hP.imp (fun hlt => hlt.imp id (And.imp id le_of_lt))
  constructor
  · have hSperm : List.Perm (staticEntityOrder g1 g2) ((g1.zip g2).dedup) :=
      List.perm_insertionSort pairLe ((g1.zip g2).dedup)
    have hSnodup : (staticEntityOrder g1 g2).Nodup :=
      hSperm.nodup_iff.mpr (List.nodup_dedup _)
    have hmemiff : ∀ p, p ∈ staticEntityOrder g1 g2 ↔
        p ∈ listProduct (pdUnique g1) (pdUnique g2) := by
      intro p
      rw [hSperm.mem_iff, List.mem_dedup]
      constructor
      · intro hz
        obtain ⟨a, b⟩ := p
        have hab := List.of_mem_zip hz
        exact mem_listProduct.mpr ⟨mem_pdUnique.mpr hab.1, mem_pdUnique.mpr hab.2⟩
      · exact hcov p
    have hperm : List.Perm (staticEntityOrder g1 g2) (listProduct (pdUnique g1) (pdUnique g2)) :=
      (List.perm_ext_iff_of_nodup hSnodup hPnodup).mpr hmemiff
    have hSsorted : (staticEntityOrder g1 g2).Sorted pairLe :=
      List.sorted_insertionSort pairLe ((g1.zip g2).dedup)
    exact List.eq_of_perm_of_sorted hperm hSsorted hPsorted
  · show listProduct (pdUnique g1) (pdUnique g2) = claimedEntityOrder g1 g2
    unfold claimedEntityOrder
    rw [insertionSort_eq_of_sorted (h1.imp le_of_lt),
        insertionSort_eq_of_sorted (h2.imp le_of_lt)]

theorem C7_entity_order_amended_witness :
    (pdUnique [1, 1, 2, 2]).Pairwise (fun a b : ℕ => a < b) ∧
    staticEntityOrder [1, 1, 2, 2] [1, 2, 1, 2] = genSeqEntityOrder [1, 1, 2, 2] [1, 2, 1, 2] :=
  ⟨by decide,
   (C7_entity_order_amended [1, 1, 2, 2] [1, 2, 1, 2] (by decide) (by decide) (by decide)).1⟩

end FeatureUtils

